import Mathlib

/-!
Verification of the PyOS security and orchestration core against its
natural-language specification.

Python strings are modelled as `List Char`; Python `set`s as `List`s with
decidable membership (the claims below never depend on ordering or
duplication).  Fallible Python code (code that can raise) is modelled with
`Option`; `none` models an uncaught exception.  Filesystem-dependent
behaviour (symlinks, existence checks) is modelled on a symlink-free
filesystem, so path resolution is the purely lexical part of
`pathlib.Path.resolve`.
-/

namespace PyOS

/-- Whitespace test matching Python's `str.isspace` / `\s` on ASCII input. -/
def isPySpace (c : Char) : Bool :=
  c = ' ' || c = '\t' || c = '\n' || c = '\r' || c = '\x0b' || c = '\x0c'

/-- Python `str.lower`, restricted to ASCII case mapping. -/
def pyLower (s : List Char) : List Char :=
  s.map Char.toLower

/-- Python `str.strip()` with no arguments: drop whitespace at both ends. -/
def pyStrip (s : List Char) : List Char :=
  ((s.dropWhile isPySpace).reverse.dropWhile isPySpace).reverse

/-- Tokenizer behind `pySplit`, carrying the reversed current word. -/
def pySplitAux : List Char → List Char → List (List Char)
  | [], acc => if acc = [] then [] else [acc.reverse]
  | c :: cs, acc =>
    if isPySpace c then
      if acc = [] then pySplitAux cs []
      else acc.reverse :: pySplitAux cs []
    else pySplitAux cs (c :: acc)

/-- Python `str.split()` with no arguments: maximal runs of non-whitespace. -/
def pySplit (s : List Char) : List (List Char) :=
  pySplitAux s []

/-- Boolean test that the first list is a leading segment of the second. -/
def isPrefixOfD [DecidableEq α] : List α → List α → Bool
  | [], _ => true
  | _ :: _, [] => false
  | a :: as, b :: bs => if a = b then isPrefixOfD as bs else false

/-- Boolean test that `needle` occurs contiguously inside the second list,
modelling Python's `in` operator on strings. -/
def containsSub [DecidableEq α] (needle : List α) : List α → Bool
  | [] => needle.isEmpty
  | b :: bs => isPrefixOfD needle (b :: bs) || containsSub needle bs

/-! Minimal regular-expression fragment covering the three compiled
patterns of `SecurityShield.blocked_patterns`: literals, `\s+`, and `.*`
(the latter not crossing a newline, as in Python's `re`). -/

inductive RTok where
  | lit (s : List Char)
  | wsPlus
  | anyStar

/-- Remainders of the input after consuming one-or-more whitespace chars. -/
def wsRems : List Char → List (List Char)
  | [] => []
  | c :: cs => if isPySpace c then cs :: wsRems cs else []

/-- Remainders of the input after consuming zero-or-more non-newline chars. -/
def anyRems : List Char → List (List Char)
  | [] => [[]]
  | c :: cs => (c :: cs) :: (if c = '\n' then [] else anyRems cs)

/-- Match a token sequence against a leading segment of the input. -/
def matchToks : List RTok → List Char → Bool
  | [], _ => true
  | RTok.lit s :: rest, cs => isPrefixOfD s cs && matchToks rest (cs.drop s.length)
  | RTok.wsPlus :: rest, cs => (wsRems cs).any fun r => matchToks rest r
  | RTok.anyStar :: rest, cs => (anyRems cs).any fun r => matchToks rest r

/-- Python `re.Pattern.search`: match the token sequence at any position. -/
def searchToks (p : List RTok) : List Char → Bool
  | [] => matchToks p []
  | c :: cs => matchToks p (c :: cs) || searchToks p cs

/-- Compiled pattern `rm\s+-rf\s+/` from `SecurityShield.__init__`. -/
def patRmRf : List RTok :=
  [RTok.lit ("rm".toList), RTok.wsPlus, RTok.lit ("-rf".toList),
   RTok.wsPlus, RTok.lit ("/".toList)]

/-- Compiled pattern `mkfs` from `SecurityShield.__init__`. -/
def patMkfs : List RTok :=
  [RTok.lit ("mkfs".toList)]

/-- Compiled pattern `dd\s+if=.*of=/dev` from `SecurityShield.__init__`. -/
def patDdDev : List RTok :=
  [RTok.lit ("dd".toList), RTok.wsPlus, RTok.lit ("if=".toList),
   RTok.anyStar, RTok.lit ("of=/dev".toList)]

/-- The default `blocked_patterns` list of `SecurityShield`. -/
def blocked_patterns : List (List RTok) :=
  [patRmRf, patMkfs, patDdDev]

/-- State of a `SecurityShield`: the command allow-set (normalized head
tokens) and the path allow-set (each stored as the segment list of an
already-resolved absolute path, as `add_allowed_path` stores
`Path(path).resolve()`). -/
structure SecurityShield where
  allowed_commands : List (List Char)
  allowed_paths : List (List (List Char))

/-- `SecurityShield.is_command_allowed`.  Returns `none` when the Python
code raises `IndexError` (taking `[0]` of an empty split); otherwise
`some` of the returned boolean.  Mirrors the source order: the head token
is extracted first, then blocked patterns are searched on the lowercased
full command, then allow-set membership is consulted. -/
def is_command_allowed (shield : SecurityShield) (command : List Char) :
    Option Bool :=
  if command = [] then some false
  else
    match (pySplit (pyStrip command)).head? with
    | none => none
    | some w =>
      let cmd_name := pyLower w
      if blocked_patterns.any (fun p => searchToks p (pyLower command)) then
        some false
      else
        some (decide (cmd_name ∈ shield.allowed_commands))

/-- Tokenizer behind `splitSlash`, the way `pathlib.PurePosixPath` parses
a path (empty segments collapse; `.` and `..` segments are kept). -/
def splitSlashAux : List Char → List Char → List (List Char)
  | [], acc => if acc = [] then [] else [acc.reverse]
  | c :: cs, acc =>
    if c = '/' then
      if acc = [] then splitSlashAux cs []
      else acc.reverse :: splitSlashAux cs []
    else splitSlashAux cs (c :: acc)

/-- Split an absolute path string on `/`, dropping empty segments. -/
def splitSlash (s : List Char) : List (List Char) :=
  splitSlashAux s []

/-- Lexical part of `pathlib.Path.resolve` on an absolute path of a
symlink-free filesystem: `.` segments vanish and `..` removes the previous
segment (at the root it stays at the root). -/
def resolveSegs (segs : List (List Char)) : List (List Char) :=
  segs.foldl
    (fun acc s =>
      if s = ['.'] then acc
      else if s = ['.', '.'] then acc.dropLast
      else acc ++ [s])
    []

/-- `SecurityShield.is_path_allowed`: resolve the candidate, then test
`p.relative_to(allowed)` against every allowed root; `relative_to`
succeeds exactly when the allowed root's segments lead the candidate's. -/
def is_path_allowed (shield : SecurityShield) (path : List Char) : Bool :=
  let p := resolveSegs (splitSlash path)
  shield.allowed_paths.any fun allowed => isPrefixOfD allowed p

/-! The `PythonASTValidator`.  The CPython parser itself is outside the
program; its output is modelled abstractly: the validator's input is
`Option (List PyStmt)`, where `none` is a failed parse (a raised
`SyntaxError`) and `some tree` is the parsed module body.  The node shapes
below carry exactly the fields the validator's checks read. -/

/-- Expression nodes of the `ast` module read by the validator.  String
constants carry `some` of their value; other constants carry `none`. -/
inductive PyExpr where
  | name (id : List Char)
  | attributeE (base : PyExpr) (attr : List Char)
  | constant (strVal : Option (List Char))
  | call (func : PyExpr) (args : List PyExpr)
  | otherExpr

/-- Statement nodes of the `ast` module read by the validator.
`imp names` is `ast.Import`; `impFrom module names` is `ast.ImportFrom`. -/
inductive PyStmt where
  | imp (names : List (List Char))
  | impFrom (module : Option (List Char)) (names : List (List Char))
  | exprStmt (e : PyExpr)
  | otherStmt

/-- A node encountered by `ast.walk`. -/
inductive PyNode where
  | stmt (s : PyStmt)
  | expr (e : PyExpr)

mutual

/-- Every expression node reachable from an expression, itself included. -/
def exprNodes : PyExpr → List PyExpr
  | PyExpr.name i => [PyExpr.name i]
  | PyExpr.attributeE b a => PyExpr.attributeE b a :: exprNodes b
  | PyExpr.constant v => [PyExpr.constant v]
  | PyExpr.call f args => PyExpr.call f args :: (exprNodes f ++ exprNodesList args)
  | PyExpr.otherExpr => [PyExpr.otherExpr]

/-- Every expression node reachable from a list of expressions. -/
def exprNodesList : List PyExpr → List PyExpr
  | [] => []
  | e :: es => exprNodes e ++ exprNodesList es

end

/-- Every node reachable from one statement, itself included. -/
def stmtNodes : PyStmt → List PyNode
  | PyStmt.exprStmt e =>
    PyNode.stmt (PyStmt.exprStmt e) :: (exprNodes e).map PyNode.expr
  | s => [PyNode.stmt s]

/-- All nodes of a module, as visited by `ast.walk` (the claims settled
below never depend on the visit order, only on which violations occur). -/
def allNodes (tree : List PyStmt) : List PyNode :=
  tree.flatMap stmtNodes

/-- The validator's `DANGEROUS_IMPORTS` set. -/
def DANGEROUS_IMPORTS : List (List Char) :=
  ["os.system", "os.popen", "subprocess.call", "subprocess.run",
   "subprocess.Popen", "shutil.rmtree", "shutil.copy", "eval", "exec",
   "compile", "__import__"].map String.toList

/-- The validator's `DANGEROUS_BUILTINS` set. -/
def DANGEROUS_BUILTINS : List (List Char) :=
  ["eval", "exec", "compile", "open", "__import__", "globals",
   "locals"].map String.toList

/-- A violation string appended by the validator, abstracted to its
constructor kind plus the interpolated payload. -/
inductive Violation where
  | syntaxError
  | dangerousImport (name : List Char)
  | dangerousBuiltinCall (id : List Char)
  | dangerousAttribute (attr : List Char)
  | fileAccessNotAllowed (path : List Char)
deriving DecidableEq

/-- `PythonASTValidator._check_import` applied to one node. -/
def check_import : PyNode → List Violation
  | PyNode.stmt (PyStmt.imp names) =>
    names.flatMap fun n =>
      if n ∈ DANGEROUS_IMPORTS then [Violation.dangerousImport n] else []
  | PyNode.stmt (PyStmt.impFrom (some m) names) =>
    names.flatMap fun n =>
      let full := m ++ '.' :: n
      (if full ∈ DANGEROUS_IMPORTS then [Violation.dangerousImport full] else [])
        ++
      (if n = "system".toList ∨ n = "popen".toList ∨ n = "call".toList ∨
          n = "Popen".toList then [Violation.dangerousImport full] else [])
  | _ => []

/-- `PythonASTValidator._check_function_call` applied to one node. -/
def check_function_call : PyNode → List Violation
  | PyNode.expr (PyExpr.call (PyExpr.name id) _) =>
    if id ∈ DANGEROUS_BUILTINS then [Violation.dangerousBuiltinCall id] else []
  | PyNode.expr (PyExpr.call (PyExpr.attributeE _ attr) _) =>
    if attr = "__import__".toList ∨ attr = "__class__".toList ∨
        attr = "__bases__".toList then [Violation.dangerousAttribute attr]
    else []
  | _ => []

/-- Check of the first `open` argument: a string literal is tested
against the attached shield's `is_path_allowed`; a missing or non-literal
argument is not flagged. -/
def openArgCheck (sh : SecurityShield) : List PyExpr → List Violation
  | PyExpr.constant (some filepath) :: _ =>
    if is_path_allowed sh filepath then []
    else [Violation.fileAccessNotAllowed filepath]
  | _ => []

/-- `PythonASTValidator._check_builtin_call` applied to one node: an
`open(...)` call is checked when a shield is attached. -/
def check_builtin_call (shield : Option SecurityShield) : PyNode → List Violation
  | PyNode.expr (PyExpr.call (PyExpr.name id) args) =>
    if id = "open".toList then
      match shield with
      | some sh => openArgCheck sh args
      | none => []
    else []
  | _ => []

/-- The three per-node checks run by the walk loop, in source order. -/
def checkNode (shield : Option SecurityShield) (n : PyNode) : List Violation :=
  check_import n ++ check_function_call n ++ check_builtin_call shield n

/-- `PythonASTValidator.validate_python_code`: `none` input models a
source string whose parse raised `SyntaxError`. -/
def validate_python_code (shield : Option SecurityShield)
    (parsed : Option (List PyStmt)) : Bool × List Violation :=
  match parsed with
  | none => (false, [Violation.syntaxError])
  | some tree =>
    let violations := (allNodes tree).flatMap (checkNode shield)
    (violations.isEmpty, violations)

/-! The `ApprovalManager`. -/

/-- The `CRITICAL_KEYWORDS` set of `ApprovalManager` (a Python `set`;
iteration order does not affect the any-keyword result). -/
def CRITICAL_KEYWORDS : List (List Char) :=
  ["delete", "remove", "rm", "rmdir",
   "format", "mkfs", "dd",
   "sudo", "chmod", "chown",
   "network", "firewall", "iptables",
   "install", "uninstall", "apt", "pip", "brew",
   "reboot", "shutdown", "halt"].map String.toList

/-- `ApprovalManager.is_critical`: some critical keyword occurs as a
contiguous substring of the lowercased command. -/
def is_critical (command : List Char) : Bool :=
  CRITICAL_KEYWORDS.any fun k => containsSub k (pyLower command)

/-- State of an `ApprovalManager`: the dev-mode flag, the session cache of
approved action strings, and the approval history (action, approved). -/
structure ApprovalManager where
  auto_approve : Bool
  approved_actions : List (List Char)
  approval_history : List (List Char × Bool)

/-- `ApprovalManager.require_approval`.  The interactive confirmation
dialog is an external channel, passed in as the `oracle` decision.
Returns (result, prompted, new state) where `prompted` records whether the
external channel was consulted. -/
def require_approval (m : ApprovalManager) (action : List Char)
    (oracle : Bool) : Bool × Bool × ApprovalManager :=
  if m.auto_approve then (true, false, m)
  else if decide (action ∈ m.approved_actions) then (true, false, m)
  else if oracle then
    (true, true,
      { m with
        approved_actions := m.approved_actions ++ [action]
        approval_history := m.approval_history ++ [(action, true)] })
  else (false, true, m)

/-- A session: a sequence of further `require_approval` calls threading the
manager state. -/
def runCalls (m : ApprovalManager) : List (List Char × Bool) → ApprovalManager
  | [] => m
  | (a, o) :: rest => runCalls (require_approval m a o).2.2 rest

/-! The `PyOSOrchestrator` action ledger.  `execute_objective` assigns a
fresh empty list to `self.action_log` once, before its while-loop, and the
only other operation ever applied to the ledger is the append performed by
`_log_action`.  The loop below mirrors the control flow of
`execute_objective` as far as the ledger is concerned; the external
decision provider and the tools are oracles indexed by iteration. -/

/-- The fields of an `ActionLog` entry used by the ledger claims. -/
structure ActionLog where
  iteration : Nat
  action_type : List Char
  tool_name : Option (List Char)
  success : Bool

/-- What iteration `i` of the objective loop observes: the decision
provider signals completion, names a tool (whose execution then succeeds
or fails), or the iteration body raises. -/
inductive DecisionOutcome where
  | done
  | toolCall (name : List Char) (succ : Bool)
  | raiseExc

/-- Loop-relevant orchestrator state: `iteration_count` and `action_log`. -/
structure LoopState where
  iteration_count : Nat
  action_log : List ActionLog

/-- `PyOSOrchestrator._log_action`: append one entry to the ledger. -/
def log_action (st : LoopState) (action_type : List Char)
    (tool_name : Option (List Char)) (success : Bool) : LoopState :=
  { st with
    action_log := st.action_log ++
      [{ iteration := st.iteration_count
         action_type := action_type
         tool_name := tool_name
         success := success }] }

/-- The while-loop of `execute_objective`, driven by the decision oracle
`ds` (the fuel argument bounds the recursion; `execute_objective` passes
`max_iterations`, which the loop guard makes exact). -/
def runLoop (tools : List (List Char)) (max_iterations : Nat)
    (ds : Nat → DecisionOutcome) : Nat → LoopState → LoopState
  | 0, st => st
  | fuel + 1, st =>
    if st.iteration_count < max_iterations then
      let st := { st with iteration_count := st.iteration_count + 1 }
      match ds st.iteration_count with
      | DecisionOutcome.done =>
        log_action st ("ai_decision".toList) none true
      | DecisionOutcome.raiseExc =>
        log_action st ("error".toList) none false
      | DecisionOutcome.toolCall name succ =>
        if decide (name ∈ tools) then
          runLoop tools max_iterations ds fuel
            (log_action st ("tool_execution".toList) (some name) succ)
        else
          runLoop tools max_iterations ds fuel
            (log_action st ("ai_decision".toList) none false)
    else st

/-- `PyOSOrchestrator.execute_objective`, restricted to its effect on the
ledger: reset the counter, clear the ledger once, then run the loop. -/
def execute_objective (tools : List (List Char)) (max_iterations : Nat)
    (ds : Nat → DecisionOutcome) : LoopState :=
  runLoop tools max_iterations ds max_iterations
    { iteration_count := 0, action_log := [] }

/-! The self-healing pair `_execute_tool` / `_analyze_and_retry_tool`.
The tool under execution is an oracle mapping the global invocation index
to one of three outcomes: return a successful `ToolResult`, return a
failed `ToolResult` without raising, or raise an exception.  The two
functions recurse into one another; `fuel` models the Python call stack,
and a `none` first component models the `RecursionError` raised when that
stack is exhausted.  The second component counts tool invocations
performed. -/

/-- Outcome of one invocation of the wrapped tool function. -/
inductive ToolBeh where
  | ok
  | failRes
  | raiseExc

/-- Shape of the `ToolResult` produced by the recovery machinery:
a success, an ordinary failure, or the "Falha permanente" exhaustion
result built when `attempt > max_retries`. -/
inductive RecResult where
  | succ
  | fail
  | exhausted
deriving DecidableEq

mutual

/-- `PyOSOrchestrator._execute_tool` for a registered tool: invoke the
tool; convert a returned result; on a raised exception enter
`_analyze_and_retry_tool` with `attempt = 1`. -/
def execute_tool (max_retries : Nat) (tool : Nat → ToolBeh) :
    Nat → Nat → Option RecResult × Nat
  | 0, k => (none, k)
  | fuel + 1, k =>
    match tool k with
    | ToolBeh.ok => (some RecResult.succ, k + 1)
    | ToolBeh.failRes => (some RecResult.fail, k + 1)
    | ToolBeh.raiseExc => analyze_and_retry_tool max_retries tool fuel (k + 1) 1

/-- `PyOSOrchestrator._analyze_and_retry_tool`: return the exhaustion
result when `attempt > max_retries`; otherwise re-invoke `_execute_tool`
and, if the retried call reports failure, recurse with `attempt + 1`. -/
def analyze_and_retry_tool (max_retries : Nat) (tool : Nat → ToolBeh) :
    Nat → Nat → Nat → Option RecResult × Nat
  | 0, k, _ => (none, k)
  | fuel + 1, k, attempt =>
    if attempt > max_retries then (some RecResult.exhausted, k)
    else
      match execute_tool max_retries tool fuel k with
      | (some RecResult.succ, k1) => (some RecResult.succ, k1)
      | (some _, k1) => analyze_and_retry_tool max_retries tool fuel k1 (attempt + 1)
      | (none, k1) => (none, k1)

end

/-- A tool whose every invocation raises an exception. -/
def alwaysRaise : Nat → ToolBeh := fun _ => ToolBeh.raiseExc

/-- A tool whose every invocation returns a failed result without raising. -/
def alwaysFailRes : Nat → ToolBeh := fun _ => ToolBeh.failRes

/-- The fixed alternate-binary table of `_propose_error_fix`, in the
insertion order of the Python dict. -/
def fixVariants : List (List Char × List Char) :=
  [("python".toList, "python3".toList),
   ("node".toList, "nodejs".toList),
   ("pip".toList, "pip3".toList)]

/-- The variant loop of the command-not-found branch: for the first table
entry whose key leads the command, replace that first occurrence. -/
def applyVariants (cmd : List Char) : List Char :=
  match fixVariants.find? (fun v => isPrefixOfD v.1 cmd) with
  | some v => v.2 ++ cmd.drop v.1.length
  | none => cmd

/-- The error substring `permission denied` tested by the first branch. -/
def errPermissionDenied : List Char := "permission denied".toList

/-- The error substring `no such file` tested by the second branch. -/
def errNoSuchFile : List Char := "no such file".toList

/-- The error substring `not found` tested by the second branch. -/
def errNotFound : List Char := "not found".toList

/-- The error substring `command not found` tested by the third branch. -/
def errCommandNotFound : List Char := "command not found".toList

/-- `PyOSOrchestrator._propose_error_fix`, restricted to the `command`
entry of the argument mapping (the only entry any branch rewrites). -/
def propose_error_fix (tool_name : List Char) (command : List Char)
    (error : List Char) : List Char :=
  let error_lower := pyLower error
  if containsSub errPermissionDenied error_lower then
    if tool_name = "execute_command".toList ∧
        ¬ isPrefixOfD ("sudo".toList) command = true then
      "sudo ".toList ++ command
    else command
  else if containsSub errNoSuchFile error_lower ||
      containsSub errNotFound error_lower then
    command
  else if containsSub errCommandNotFound error_lower then
    if tool_name = "execute_command".toList then applyVariants command
    else command
  else command

/-! Concrete fixtures used by the scenario parts of the theorems below. -/

/-- A shield whose only allowed path is the resolved `/tmp`. -/
def tmpRootShield : SecurityShield :=
  { allowed_commands := [], allowed_paths := [["tmp".toList]] }

/-- The parsed module `open("/tmp/notes.txt")`, whose literal path is
under the allowed root of `tmpRootShield`. -/
def openAllowedScript : List PyStmt :=
  [PyStmt.exprStmt
    (PyExpr.call (PyExpr.name ("open".toList))
      [PyExpr.constant (some ("/tmp/notes.txt".toList))])]

/-- The parsed module `open("/etc/passwd")`, whose literal path is outside
the allowed root of `tmpRootShield`. -/
def openDeniedScript : List PyStmt :=
  [PyStmt.exprStmt
    (PyExpr.call (PyExpr.name ("open".toList))
      [PyExpr.constant (some ("/etc/passwd".toList))])]

/-! Helper lemmas. -/

/-- A matched leading segment starts with the needle's head. -/
theorem isPrefixOfD_head_mem [DecidableEq α] {a : α} {s cs : List α}
    (h : isPrefixOfD (a :: s) cs = true) : a ∈ cs := by
  cases cs with
  | nil => simp [isPrefixOfD] at h
  | cons b bs =>
    by_cases hab : a = b
    · subst hab
      exact List.mem_cons_self a bs
    · simp [isPrefixOfD, hab] at h

/-- A token list starting with a literal only matches input containing the
literal's first character. -/
theorem matchToks_head_mem {a : Char} {s : List Char} {rest : List RTok}
    {cs : List Char} (h : matchToks (RTok.lit (a :: s) :: rest) cs = true) :
    a ∈ cs := by
  unfold matchToks at h
  exact isPrefixOfD_head_mem (Bool.and_elim_left h)

/-- Searching such a token list anywhere still requires that character. -/
theorem searchToks_head_mem {a : Char} {s : List Char} {rest : List RTok}
    {cs : List Char}
    (h : searchToks (RTok.lit (a :: s) :: rest) cs = true) : a ∈ cs := by
  induction cs with
  | nil =>
    unfold searchToks at h
    exact absurd h (by simp [matchToks, isPrefixOfD])
  | cons c cs ih =>
    unfold searchToks at h
    rcases Bool.or_eq_true_iff.mp h with h1 | h2
    · exact matchToks_head_mem h1
    · exact List.mem_cons_of_mem _ (ih h2)

/-- Whitespace characters are fixed by `Char.toLower`. -/
theorem toLower_of_space {c : Char} (h : isPySpace c = true) :
    Char.toLower c = c := by
  simp only [isPySpace, Bool.or_eq_true, decide_eq_true_eq] at h
  rcases h with ((((h | h) | h) | h) | h) | h <;> subst h <;> decide

/-- A command matched by some blocked pattern contains a non-whitespace
character (each default pattern begins with a literal letter). -/
theorem blocked_nonspace {cmd : List Char}
    (h : blocked_patterns.any (fun p => searchToks p (pyLower cmd)) = true) :
    ∃ c ∈ cmd, isPySpace c = false := by
  have h' : ∃ a ∈ pyLower cmd, isPySpace a = false := by
    simp only [blocked_patterns, patRmRf, patMkfs, patDdDev, List.any_cons,
      List.any_nil, Bool.or_eq_true, Bool.or_false] at h
    rcases h with h | h | h
    · exact ⟨'r', searchToks_head_mem h, by decide⟩
    · exact ⟨'m', searchToks_head_mem h, by decide⟩
    · exact ⟨'d', searchToks_head_mem h, by decide⟩
  obtain ⟨a, ha, hap⟩ := h'
  obtain ⟨c, hc, rfl⟩ := List.mem_map.1 ha
  refine ⟨c, hc, ?_⟩
  cases hcs : isPySpace c with
  | false => rfl
  | true =>
    rw [toLower_of_space hcs, hcs] at hap
    simp at hap

/-- Members surviving `dropWhile` : any member failing the predicate. -/
theorem mem_dropWhile_of_mem {p : α → Bool} {c : α} {l : List α}
    (hc : c ∈ l) (hp : p c = false) : c ∈ l.dropWhile p := by
  induction l with
  | nil => cases hc
  | cons a l ih =>
    rw [List.dropWhile_cons]
    by_cases ha : p a = true
    · rw [if_pos ha]
      rcases List.mem_cons.1 hc with rfl | hmem
      · rw [hp] at ha
        simp at ha
      · exact ih hmem
    · rw [if_neg ha]
      exact hc

/-- `pyStrip` keeps every non-whitespace member. -/
theorem mem_pyStrip_of_mem {c : Char} {l : List Char} (hc : c ∈ l)
    (hp : isPySpace c = false) : c ∈ pyStrip l := by
  unfold pyStrip
  rw [List.mem_reverse]
  exact mem_dropWhile_of_mem (List.mem_reverse.2 (mem_dropWhile_of_mem hc hp)) hp

/-- The tokenizer never returns the empty list once a word is open. -/
theorem pySplitAux_ne_nil_of_acc {l acc : List Char} (ha : acc ≠ []) :
    pySplitAux l acc ≠ [] := by
  induction l generalizing acc with
  | nil => simp [pySplitAux, ha]
  | cons c cs ih =>
    by_cases hc : isPySpace c = true
    · simp [pySplitAux, hc, ha]
    · simp only [pySplitAux, hc, Bool.false_eq_true, if_false]
      exact ih (List.cons_ne_nil _ _)

/-- A list with a non-whitespace member splits into at least one word. -/
theorem pySplit_ne_nil {l : List Char} (h : ∃ c ∈ l, isPySpace c = false) :
    pySplit l ≠ [] := by
  unfold pySplit
  induction l with
  | nil =>
    obtain ⟨c, hc, _⟩ := h
    cases hc
  | cons a l ih =>
    by_cases ha : isPySpace a = true
    · obtain ⟨c, hc, hcp⟩ := h
      rcases List.mem_cons.1 hc with rfl | hmem
      · rw [ha] at hcp
        simp at hcp
      · simp only [pySplitAux, ha, if_true, if_pos rfl]
        exact ih ⟨c, hmem, hcp⟩
    · simp only [pySplitAux, ha, Bool.false_eq_true, if_false]
      exact pySplitAux_ne_nil_of_acc (List.cons_ne_nil _ _)

/-- Claim C1: for every command string, if any blocked pattern matches the
full (lowercased) command, `is_command_allowed` returns `false`, whatever
the allow set contains — in particular even when the command's head token
is allow-listed. -/
theorem blocked_pattern_overrides_allow (shield : SecurityShield)
    (command : List Char)
    (h : blocked_patterns.any (fun p => searchToks p (pyLower command)) = true) :
    is_command_allowed shield command = some false := by
  obtain ⟨c, hc, hcp⟩ := blocked_nonspace h
  have hne : command ≠ [] := by
    intro e
    subst e
    cases hc
  have hsplit : pySplit (pyStrip command) ≠ [] :=
    pySplit_ne_nil ⟨c, mem_pyStrip_of_mem hc hcp, hcp⟩
  obtain ⟨w, ws, hw⟩ := List.exists_cons_of_ne_nil hsplit
  unfold is_command_allowed
  rw [if_neg hne, hw]
  simp [h]

/-- Witness for claim C1: with `rm` allow-listed, `rm -rf /` is still
denied because the first blocked pattern matches it. -/
theorem blocked_pattern_overrides_allow_witness :
    blocked_patterns.any
        (fun p => searchToks p (pyLower ("rm -rf /".toList))) = true ∧
      is_command_allowed ⟨["rm".toList], []⟩ ("rm -rf /".toList) =
        some false :=
  ⟨by decide,
   blocked_pattern_overrides_allow ⟨["rm".toList], []⟩ ("rm -rf /".toList)
     (by decide)⟩

/-- Claim C9: `is_command_allowed` is not total over strings.  The empty
string returns `false` through the falsy-guard, but every non-empty
all-whitespace string passes the guard and then raises `IndexError`
(modelled `none`) when the head token of the empty split is taken. -/
theorem is_command_allowed_not_total (shield : SecurityShield)
    (command : List Char) (hne : command ≠ [])
    (hws : ∀ c ∈ command, isPySpace c = true) :
    is_command_allowed shield [] = some false ∧
      is_command_allowed shield command = none := by
  constructor
  · rfl
  · have hstrip : pyStrip command = [] := by
      unfold pyStrip
      have h1 : command.dropWhile isPySpace = [] :=
        List.dropWhile_eq_nil_iff.2 hws
      rw [h1]
      rfl
    unfold is_command_allowed
    rw [if_neg hne, hstrip]
    rfl

/-- Semantics of `isPrefixOfD`: the needle plus some tail is the hay. -/
theorem isPrefixOfD_iff [DecidableEq α] (n h : List α) :
    isPrefixOfD n h = true ↔ ∃ t, n ++ t = h := by
  induction n generalizing h with
  | nil => simp [isPrefixOfD]
  | cons a as ih =>
    cases h with
    | nil => simp [isPrefixOfD]
    | cons b bs =>
      by_cases hab : a = b
      · subst hab
        simp only [isPrefixOfD, eq_self_iff_true, if_true, ih,
          List.cons_append, List.cons.injEq, true_and]
      · simp only [isPrefixOfD, if_neg hab, List.cons_append, List.cons.injEq]
        constructor
        · intro h
          exact absurd h Bool.false_ne_true
        · rintro ⟨t, hb, -⟩
          exact absurd hb hab

/-- Semantics of `containsSub`: the needle occurs between two segments. -/
theorem containsSub_iff [DecidableEq α] (n h : List α) :
    containsSub n h = true ↔ ∃ s t, s ++ n ++ t = h := by
  induction h with
  | nil =>
    cases n <;> simp [containsSub, List.isEmpty]
  | cons b bs ih =>
    simp only [containsSub, Bool.or_eq_true, isPrefixOfD_iff, ih]
    constructor
    · rintro (⟨t, ht⟩ | ⟨s, t, hst⟩)
      · exact ⟨[], t, by simpa using ht⟩
      · exact ⟨b :: s, t, by simp [hst]⟩
    · rintro ⟨s, t, hst⟩
      cases s with
      | nil => exact Or.inl ⟨t, by simpa using hst⟩
      | cons x s =>
        simp only [List.cons_append, List.cons.injEq] at hst
        exact Or.inr ⟨s, t, hst.2⟩

/-- Occurrence is transitive: a substring of a substring occurs. -/
theorem containsSub_trans [DecidableEq α] {a b c : List α}
    (h1 : containsSub a b = true) (h2 : containsSub b c = true) :
    containsSub a c = true := by
  obtain ⟨s1, t1, hb⟩ := (containsSub_iff a b).1 h1
  obtain ⟨s2, t2, hc⟩ := (containsSub_iff b c).1 h2
  refine (containsSub_iff a c).2 ⟨s2 ++ s1, t1 ++ t2, ?_⟩
  subst hb
  subst hc
  simp [List.append_assoc]

/-- Claim C10: `is_critical` is true exactly when some critical keyword
occurs as a contiguous substring of the lowercased command — not as a
whole word — so any command whose lowercase form contains `farm` is
classified critical, because `farm` contains the keyword `rm`. -/
theorem is_critical_substring_semantics (command : List Char) :
    (is_critical command = true ↔
      ∃ k, k ∈ CRITICAL_KEYWORDS ∧ containsSub k (pyLower command) = true) ∧
    (containsSub ("farm".toList) (pyLower command) = true →
      is_critical command = true) := by
  constructor
  · exact List.any_eq_true
  · intro hf
    have hrm : containsSub ("rm".toList) ("farm".toList) = true := by decide
    refine List.any_eq_true.2 ⟨"rm".toList, ?_, containsSub_trans hrm hf⟩
    decide

/-- Witness for claim C10: `harvest the farm` performs no critical
operation, yet it is classified critical through the `rm` inside `farm`. -/
theorem is_critical_substring_semantics_witness :
    containsSub ("farm".toList) (pyLower ("harvest the farm".toList)) = true ∧
      is_critical ("harvest the farm".toList) = true :=
  ⟨by decide,
   (is_critical_substring_semantics ("harvest the farm".toList)).2 (by decide)⟩

/-- Claim C3: `is_path_allowed` accepts exactly the paths whose resolved
segment list is equal to or nested under some allowed root, so traversal
segments are resolved away before the comparison; with `/tmp` allowed,
`/tmp/../../etc/passwd` resolves to `/etc/passwd` and is denied. -/
theorem path_allowed_iff_under_root (shield : SecurityShield)
    (path : List Char) :
    ((∃ r, r ∈ shield.allowed_paths ∧
        isPrefixOfD r (resolveSegs (splitSlash path)) = true) →
      is_path_allowed shield path = true) ∧
    ((∀ r ∈ shield.allowed_paths,
        isPrefixOfD r (resolveSegs (splitSlash path)) = false) →
      is_path_allowed shield path = false) ∧
    is_path_allowed tmpRootShield ("/tmp/../../etc/passwd".toList) = false := by
  refine ⟨?_, ?_, by decide⟩
  · intro h
    exact List.any_eq_true.2 h
  · intro h
    refine List.any_eq_false.2 fun r hr => ?_
    simp [h r hr]

/-- Witness for claim C3: `/tmp/logs/app.log` is nested under the allowed
root `/tmp` and accepted; no allowed root leads the resolution of
`/tmp/../../etc/passwd`, which is rejected. -/
theorem path_allowed_iff_under_root_witness :
    (∃ r, r ∈ tmpRootShield.allowed_paths ∧
        isPrefixOfD r (resolveSegs (splitSlash ("/tmp/logs/app.log".toList))) =
          true) ∧
      is_path_allowed tmpRootShield ("/tmp/logs/app.log".toList) = true ∧
      (∀ r ∈ tmpRootShield.allowed_paths,
        isPrefixOfD r
          (resolveSegs (splitSlash ("/tmp/../../etc/passwd".toList))) =
            false) ∧
      is_path_allowed tmpRootShield ("/tmp/../../etc/passwd".toList) = false :=
  ⟨by decide,
   (path_allowed_iff_under_root tmpRootShield ("/tmp/logs/app.log".toList)).1
     (by decide),
   by decide,
   (path_allowed_iff_under_root tmpRootShield
       ("/tmp/../../etc/passwd".toList)).2.1 (by decide)⟩

/-- Witness for claim C9: a single space is rejected by neither guard and
reaches the raising index operation. -/
theorem is_command_allowed_not_total_witness :
    ([' '] : List Char) ≠ [] ∧ (∀ c ∈ ([' '] : List Char), isPySpace c = true) ∧
      is_command_allowed ⟨[], []⟩ [] = some false ∧
        is_command_allowed ⟨[], []⟩ [' '] = none := by
  refine ⟨by decide, by decide, ?_, ?_⟩
  · exact (is_command_allowed_not_total ⟨[], []⟩ [' '] (by decide) (by decide)).1
  · exact (is_command_allowed_not_total ⟨[], []⟩ [' '] (by decide) (by decide)).2


/-- `check_import` only ever emits dangerous-import violations. -/
theorem check_import_shape {n : PyNode} {v : Violation}
    (h : v ∈ check_import n) : ∃ nm, v = Violation.dangerousImport nm := by
  cases n with
  | expr e => simp [check_import] at h
  | stmt s =>
    cases s with
    | imp names =>
      simp only [check_import, List.mem_flatMap] at h
      obtain ⟨x, -, hx⟩ := h
      split at hx
      · simp only [List.mem_singleton] at hx
        exact ⟨x, hx⟩
      · simp at hx
    | impFrom mo names =>
      cases mo with
      | none => simp [check_import] at h
      | some m =>
        simp only [check_import, List.mem_flatMap] at h
        obtain ⟨x, -, hx⟩ := h
        rcases List.mem_append.1 hx with hx1 | hx1
        · split at hx1
          · simp only [List.mem_singleton] at hx1
            exact ⟨_, hx1⟩
          · simp at hx1
        · split at hx1
          · simp only [List.mem_singleton] at hx1
            exact ⟨_, hx1⟩
          · simp at hx1
    | exprStmt e => simp [check_import] at h
    | otherStmt => simp [check_import] at h

/-- `check_function_call` only emits builtin-call or attribute
violations. -/
theorem check_function_call_shape {n : PyNode} {v : Violation}
    (h : v ∈ check_function_call n) :
    (∃ i, v = Violation.dangerousBuiltinCall i) ∨
      ∃ a, v = Violation.dangerousAttribute a := by
  cases n with
  | stmt s => simp [check_function_call] at h
  | expr e =>
    cases e with
    | call f args =>
      cases f with
      | name id =>
        simp only [check_function_call] at h
        split at h
        · simp only [List.mem_singleton] at h
          exact Or.inl ⟨id, h⟩
        · simp at h
      | attributeE b a =>
        simp only [check_function_call] at h
        split at h
        · simp only [List.mem_singleton] at h
          exact Or.inr ⟨a, h⟩
        · simp at h
      | constant v0 => simp [check_function_call] at h
      | call f0 a0 => simp [check_function_call] at h
      | otherExpr => simp [check_function_call] at h
    | name i => simp [check_function_call] at h
    | attributeE b a => simp [check_function_call] at h
    | constant v0 => simp [check_function_call] at h
    | otherExpr => simp [check_function_call] at h

/-- A file-access violation from `openArgCheck` names a denied path. -/
theorem openArgCheck_denied {sh : SecurityShield} {args : List PyExpr}
    {v : Violation} {p : List Char} (h : v ∈ openArgCheck sh args)
    (hv : v = Violation.fileAccessNotAllowed p) :
    is_path_allowed sh p = false := by
  cases args with
  | nil => simp [openArgCheck] at h
  | cons arg0 rest =>
    cases arg0 with
    | constant strVal =>
      cases strVal with
      | none => simp [openArgCheck] at h
      | some filepath =>
        simp only [openArgCheck] at h
        rw [hv] at h
        by_cases hpa : is_path_allowed sh filepath = true
        · rw [if_pos hpa] at h
          simp at h
        · rw [if_neg hpa] at h
          simp only [List.mem_singleton] at h
          injection h with h2
          subst h2
          exact Bool.eq_false_iff.2 hpa
    | name i0 => simp [openArgCheck] at h
    | attributeE b0 a0 => simp [openArgCheck] at h
    | call f0 args0 => simp [openArgCheck] at h
    | otherExpr => simp [openArgCheck] at h

/-- A file-access violation is only emitted for a literal path the
attached shield denies. -/
theorem check_builtin_call_path_denied {sh : SecurityShield} {n : PyNode}
    {v : Violation} {p : List Char}
    (h : v ∈ check_builtin_call (some sh) n)
    (hv : v = Violation.fileAccessNotAllowed p) :
    is_path_allowed sh p = false := by
  cases n with
  | stmt s => simp [check_builtin_call] at h
  | expr e =>
    cases e with
    | call f args =>
      cases f with
      | name id =>
        simp only [check_builtin_call] at h
        split at h
        · exact openArgCheck_denied h hv
        · simp at h
      | attributeE b a => simp [check_builtin_call] at h
      | constant v0 => simp [check_builtin_call] at h
      | call f0 a0 => simp [check_builtin_call] at h
      | otherExpr => simp [check_builtin_call] at h
    | name i => simp [check_builtin_call] at h
    | attributeE b a => simp [check_builtin_call] at h
    | constant v0 => simp [check_builtin_call] at h
    | otherExpr => simp [check_builtin_call] at h

/-- Claim C5: the validator reports safe exactly when its violation list
is empty, and a source that fails to parse is reported unsafe with a
syntax-error violation (fail closed). -/
theorem validate_safe_iff_no_violations (shield : Option SecurityShield)
    (parsed : Option (List PyStmt)) :
    ((validate_python_code shield parsed).1 = true ↔
      (validate_python_code shield parsed).2 = []) ∧
    ((validate_python_code shield none).1 = false ∧
      Violation.syntaxError ∈ (validate_python_code shield none).2) := by
  refine ⟨?_, by simp [validate_python_code], by simp [validate_python_code]⟩
  cases parsed with
  | none => simp [validate_python_code]
  | some tree =>
    simp only [validate_python_code]
    cases (allNodes tree).flatMap (checkNode shield) <;> simp [List.isEmpty]

/-- Claim C6 (corrected): a `File access not allowed` violation is only
emitted for an `open` call whose literal path the shield denies; but a
script whose sole construct is an `open()` call with an allowed literal
path is still reported unsafe, because `open` itself is in
`DANGEROUS_BUILTINS` and `_check_function_call` flags every `open()`
call. -/
theorem file_access_violation_only_when_denied :
    (∀ (sh : SecurityShield) (tree : List PyStmt) (p : List Char),
        Violation.fileAccessNotAllowed p ∈
            (validate_python_code (some sh) (some tree)).2 →
          is_path_allowed sh p = false) ∧
    validate_python_code (some tmpRootShield) (some openAllowedScript) =
      (false, [Violation.dangerousBuiltinCall ("open".toList)]) := by
  refine ⟨?_, by decide⟩
  intro sh tree p hmem
  simp only [validate_python_code, List.mem_flatMap] at hmem
  obtain ⟨n, -, hn⟩ := hmem
  unfold checkNode at hn
  rcases List.mem_append.1 hn with hn1 | hn1
  · rcases List.mem_append.1 hn1 with hn2 | hn2
    · obtain ⟨nm, he⟩ := check_import_shape hn2
      simp at he
    · rcases check_function_call_shape hn2 with ⟨i, he⟩ | ⟨a, he⟩ <;> simp at he
  · exact check_builtin_call_path_denied hn1 rfl

/-- Witness for claim C6: `open("/etc/passwd")` under the `/tmp` shield
does produce a file-access violation, and the shield indeed denies that
path. -/
theorem file_access_violation_only_when_denied_witness :
    Violation.fileAccessNotAllowed ("/etc/passwd".toList) ∈
        (validate_python_code (some tmpRootShield) (some openDeniedScript)).2 ∧
      is_path_allowed tmpRootShield ("/etc/passwd".toList) = false :=
  ⟨by decide,
   file_access_violation_only_when_denied.1 tmpRootShield openDeniedScript
     ("/etc/passwd".toList) (by decide)⟩

/-- Counterexample to claim C6 as stated: with `/tmp` allowed, the script
`open("/tmp/notes.txt")` — whose sole construct of interest is an `open()`
call with an allowed string-literal path — is NOT reported safe: the call
itself is flagged as a dangerous builtin. -/
theorem open_allowed_path_not_reported_safe :
    (validate_python_code (some tmpRootShield) (some openAllowedScript)).1 =
        false ∧
      Violation.dangerousBuiltinCall ("open".toList) ∈
        (validate_python_code (some tmpRootShield) (some openAllowedScript)).2 := by
  constructor
  · decide
  · decide



/-- `require_approval` never changes the auto-approve flag. -/
theorem require_approval_auto_eq (m : ApprovalManager) (a : List Char)
    (o : Bool) : (require_approval m a o).2.2.auto_approve = m.auto_approve := by
  simp only [require_approval]
  split_ifs <;> rfl

/-- `require_approval` never removes a cached approval. -/
theorem require_approval_mem_mono (m : ApprovalManager) (a : List Char)
    (o : Bool) {x : List Char} (hx : x ∈ m.approved_actions) :
    x ∈ (require_approval m a o).2.2.approved_actions := by
  simp only [require_approval]
  split_ifs <;> simp [hx]

/-- A cached (or auto-approved) action returns `true` with no prompt and
an unchanged manager. -/
theorem require_approval_cached (m : ApprovalManager) (a : List Char)
    (o : Bool) (h : m.auto_approve = true ∨ a ∈ m.approved_actions) :
    require_approval m a o = (true, false, m) := by
  rcases h with h | h
  · simp [require_approval, h]
  · by_cases h1 : m.auto_approve = true <;> simp [require_approval, h1, h]

/-- A call that returns `true` leaves the action cached (or the manager in
auto-approve mode). -/
theorem require_approval_true_cached (m : ApprovalManager) (a : List Char)
    (o : Bool) (h : (require_approval m a o).1 = true) :
    (require_approval m a o).2.2.auto_approve = true ∨
      a ∈ (require_approval m a o).2.2.approved_actions := by
  by_cases h1 : m.auto_approve = true
  · exact Or.inl (by rw [require_approval_auto_eq]; exact h1)
  · by_cases h2 : a ∈ m.approved_actions
    · exact Or.inr (require_approval_mem_mono m a o h2)
    · cases ho : o with
      | true =>
        refine Or.inr ?_
        simp [require_approval, h1, h2, ho]
      | false =>
        rw [ho] at h
        simp [require_approval, h1, h2] at h

/-- Claim C7: once `require_approval` has returned `true` for an action,
every later `require_approval` for the identical action string in the
same session — whatever other approvals happen in between — returns
`true` without consulting the external approval channel. -/
theorem approval_cached_for_session (m : ApprovalManager) (a : List Char)
    (o o2 : Bool) (calls : List (List Char × Bool))
    (h : (require_approval m a o).1 = true) :
    (require_approval (runCalls (require_approval m a o).2.2 calls) a o2).1 =
        true ∧
      (require_approval (runCalls (require_approval m a o).2.2 calls) a
          o2).2.1 = false := by
  have hc := require_approval_true_cached m a o h
  have hprop : ∀ (cs : List (List Char × Bool)) (mm : ApprovalManager),
      (mm.auto_approve = true ∨ a ∈ mm.approved_actions) →
      ((runCalls mm cs).auto_approve = true ∨
        a ∈ (runCalls mm cs).approved_actions) := by
    intro cs
    induction cs with
    | nil => exact fun mm h0 => h0
    | cons pr rest ih =>
      intro mm h0
      rcases pr with ⟨b, ob⟩
      apply ih
      rcases h0 with h0 | h0
      · exact Or.inl (by rw [require_approval_auto_eq]; exact h0)
      · exact Or.inr (require_approval_mem_mono mm b ob h0)
  have h2 := hprop calls (require_approval m a o).2.2 hc
  rw [require_approval_cached _ _ _ h2]
  exact ⟨rfl, rfl⟩

/-- Witness for claim C7: an action approved through the external channel
is re-approved later in the session, after an unrelated denied request,
without prompting. -/
theorem approval_cached_for_session_witness :
    (require_approval ⟨false, [], []⟩ ("restart service".toList) true).1 =
        true ∧
      (require_approval
          (runCalls (require_approval ⟨false, [], []⟩
              ("restart service".toList) true).2.2
            [("wipe disk".toList, false)])
          ("restart service".toList) false).1 = true ∧
      (require_approval
          (runCalls (require_approval ⟨false, [], []⟩
              ("restart service".toList) true).2.2
            [("wipe disk".toList, false)])
          ("restart service".toList) false).2.1 = false := by
  refine ⟨by decide, ?_, ?_⟩
  · exact (approval_cached_for_session ⟨false, [], []⟩
      ("restart service".toList) true false [("wipe disk".toList, false)]
      (by decide)).1
  · exact (approval_cached_for_session ⟨false, [], []⟩
      ("restart service".toList) true false [("wipe disk".toList, false)]
      (by decide)).2

/-- Claim C8: within one objective run the ledger is append-only — every
loop step only ever appends entries, so the ledger at entry to any suffix
of the loop is a prefix of the final ledger — and `execute_objective`
clears the ledger exactly once, at its start, by beginning the loop from
the empty ledger. -/
theorem action_ledger_append_only (tools : List (List Char))
    (max_iterations : Nat) (ds : Nat → DecisionOutcome) :
    (∀ (fuel : Nat) (st : LoopState), ∃ t,
      (runLoop tools max_iterations ds fuel st).action_log =
        st.action_log ++ t) ∧
    execute_objective tools max_iterations ds =
      runLoop tools max_iterations ds max_iterations
        { iteration_count := 0, action_log := [] } := by
  refine ⟨?_, rfl⟩
  intro fuel
  induction fuel with
  | zero => exact fun st => ⟨[], by simp [runLoop]⟩
  | succ fuel ih =>
    intro st
    by_cases hlt : st.iteration_count < max_iterations
    · simp only [runLoop, if_pos hlt]
      cases ds (st.iteration_count + 1) with
      | done => exact ⟨_, rfl⟩
      | raiseExc => exact ⟨_, rfl⟩
      | toolCall name succ =>
        by_cases hmem : name ∈ tools
        · obtain ⟨t, ht⟩ := ih (log_action
            { st with iteration_count := st.iteration_count + 1 }
            ("tool_execution".toList) (some name) succ)
          refine ⟨[{ iteration := st.iteration_count + 1,
                     action_type := "tool_execution".toList,
                     tool_name := some name, success := succ }] ++ t, ?_⟩
          simp only [hmem, decide_True, if_true]
          rw [ht]
          simp [log_action]
        · obtain ⟨t, ht⟩ := ih (log_action
            { st with iteration_count := st.iteration_count + 1 }
            ("ai_decision".toList) none false)
          refine ⟨[{ iteration := st.iteration_count + 1,
                     action_type := "ai_decision".toList,
                     tool_name := none, success := false }] ++ t, ?_⟩
          simp only [hmem, decide_False, Bool.false_eq_true, if_false]
          rw [ht]
          simp [log_action]
    · exact ⟨[], by simp [runLoop, hlt]⟩



/-- Against a tool that raises on every invocation, the recovery pair
never produces any result: each raised retry re-enters
`_analyze_and_retry_tool` with `attempt` reset to `1`, so the recursion
only ends when the call stack (`fuel`) runs out, after about `fuel / 2`
tool invocations. -/
theorem alwaysRaise_retry_eq (fuel : Nat) : ∀ k : Nat,
    execute_tool 2 alwaysRaise fuel k = (none, k + (fuel + 1) / 2) ∧
      analyze_and_retry_tool 2 alwaysRaise fuel k 1 = (none, k + fuel / 2) := by
  induction fuel with
  | zero =>
    intro k
    constructor <;> simp [execute_tool, analyze_and_retry_tool]
  | succ fuel ih =>
    intro k
    constructor
    · simp only [execute_tool, alwaysRaise]
      rw [(ih (k + 1)).2]
      have h3 : k + 1 + fuel / 2 = k + (fuel + 1 + 1) / 2 := by omega
      rw [h3]
    · simp only [analyze_and_retry_tool]
      rw [if_neg (by decide)]
      rw [(ih k).1]

/-- Claim C2 (code bug): the retry bound does not hold.  A tool that
fails by raising on every attempt drives `_execute_tool` and
`_analyze_and_retry_tool` into mutual recursion that resets `attempt` to
`1` on every raise, so with `max_retries = 2` no exhaustion result is
ever produced and the number of tool invocations grows with the available
call stack (10 invocations within a stack of 20 — more than
`max_retries + 1 = 3`).  A tool that instead returns failed results never
enters recovery at all: its first failed result is returned directly. -/
theorem recovery_retry_bound_violated :
    (∀ fuel k, execute_tool 2 alwaysRaise fuel k =
      (none, k + (fuel + 1) / 2)) ∧
    (execute_tool 2 alwaysRaise 20 0 = (none, 10) ∧ 2 + 1 < 10) ∧
    (∀ fuel k, execute_tool 2 alwaysFailRes (fuel + 1) k =
      (some RecResult.fail, k + 1)) := by
  refine ⟨fun fuel k => (alwaysRaise_retry_eq fuel k).1, ⟨?_, by decide⟩, ?_⟩
  · rw [(alwaysRaise_retry_eq 20 0).1]
  · intro fuel k
    simp [execute_tool, alwaysFailRes]

/-- Claim C4 (code bug): the `command not found` fix pattern is dead
code.  Any error message containing `command not found` also contains
`not found`, so (absent `permission denied`) the missing-file branch fires
first and returns the arguments unchanged; `python` is never replaced by
`python3`. -/
theorem command_not_found_branch_dead (tool_name command error : List Char)
    (hcnf : containsSub errCommandNotFound (pyLower error) = true)
    (hpd : containsSub errPermissionDenied (pyLower error) = false) :
    propose_error_fix tool_name command error = command := by
  have hnf : containsSub errNotFound (pyLower error) = true :=
    containsSub_trans (by decide) hcnf
  simp only [propose_error_fix, hpd, hnf, Bool.or_true, Bool.false_eq_true,
    if_false, eq_self_iff_true, if_true]

/-- Witness for claim C4: on the error `command not found: python`, the
proposed fix leaves `python script.py` unchanged, although the (dead)
variant table would have produced `python3 script.py`. -/
theorem command_not_found_branch_dead_witness :
    containsSub errCommandNotFound
        (pyLower ("command not found: python".toList)) = true ∧
      containsSub errPermissionDenied
        (pyLower ("command not found: python".toList)) = false ∧
      propose_error_fix ("execute_command".toList)
        ("python script.py".toList) ("command not found: python".toList) =
        "python script.py".toList ∧
      applyVariants ("python script.py".toList) = "python3 script.py".toList :=
  ⟨by decide, by decide,
   command_not_found_branch_dead ("execute_command".toList)
     ("python script.py".toList) ("command not found: python".toList)
     (by decide) (by decide),
   by decide⟩


end PyOS
